import Mathlib

/-!
Verification of the response-cleaning routine `better_clean_generated_code`
and the "Generate Video" orchestration flow of `src/app.py`.

Strings are modelled as `List Char`.  the Python builtin `str.splitlines`,
`str.strip`, `str.lstrip`, `str.lower`, `in` (substring test),
`str.startswith` and `"\n".join` are embedded below.  `str.lower` is
modelled as ASCII lowercasing (`Char.toLower`); every phrase the code
compares against is pure ASCII.
-/

/-- The line-boundary characters of the Python builtin `str.splitlines`:
`\n`, `\r`, `\v` (0x0b), `\f` (0x0c), FS (0x1c), GS (0x1d), RS (0x1e),
NEL (0x85), LS (U+2028), PS (U+2029).  The pair `\r\n` is treated as a
single boundary by `splitGo` below. -/
def isLineBreakChar (c : Char) : Bool :=
  c = '\n' || c = '\r' || c = Char.ofNat 11 || c = Char.ofNat 12 ||
  c = Char.ofNat 28 || c = Char.ofNat 29 || c = Char.ofNat 30 ||
  c = Char.ofNat 133 || c = Char.ofNat 8232 || c = Char.ofNat 8233

/-- Characters stripped by the Python builtin `str.strip()` / `str.lstrip()`
(no argument): exactly the characters for which `str.isspace()` holds. -/
def isPySpace (c : Char) : Bool :=
  let n := c.toNat
  n = 32 || (9 ≤ n && n ≤ 13) || (28 ≤ n && n ≤ 31) || n = 133 || n = 160 ||
  n = 5760 || (8192 ≤ n && n ≤ 8202) || n = 8232 || n = 8233 ||
  n = 8239 || n = 8287 || n = 12288

/-- Worker for `pySplitlines`: `acc` holds the current line, reversed.
A `\r\n` pair is one boundary; a trailing boundary does not produce an
extra empty line; the empty string yields no lines. -/
def splitGo : List Char → List Char → List (List Char)
  | [], acc => if acc.isEmpty then [] else [acc.reverse]
  | [c], acc =>
    if isLineBreakChar c then [acc.reverse] else [(c :: acc).reverse]
  | c1 :: c2 :: rest, acc =>
    if isLineBreakChar c1 then
      if c1 = '\r' && c2 = '\n' then acc.reverse :: splitGo rest []
      else acc.reverse :: splitGo (c2 :: rest) []
    else splitGo (c2 :: rest) (c1 :: acc)

/-- the Python builtin `code.splitlines()` (`src/app.py` line 12). -/
def pySplitlines (s : List Char) : List (List Char) :=
  splitGo s []

/-- the Python builtin `str.lstrip()`. -/
def lstripChars (s : List Char) : List Char :=
  s.dropWhile isPySpace

/-- the Python builtin `str.strip()`. -/
def stripChars (s : List Char) : List Char :=
  ((s.dropWhile isPySpace).reverse.dropWhile isPySpace).reverse

/-- the Python builtin `str.lower()`, modelled as ASCII lowercasing. -/
def pyLower (s : List Char) : List Char :=
  s.map Char.toLower

/-- the Python builtin `s.startswith(p)`: `listStartsWith s p` is true when `p`
begins `s`. -/
def listStartsWith : List Char → List Char → Bool
  | _, [] => true
  | [], _ :: _ => false
  | c :: s, p :: ps => c == p && listStartsWith s ps

/-- the Python builtin `p in s` on strings: `listHasSub s p` is true when `p`
occurs in `s` as a contiguous substring. -/
def listHasSub : List Char → List Char → Bool
  | [], p => p.isEmpty
  | s@(_ :: rest), p => listStartsWith s p || listHasSub rest p

/-- The apostrophe character, built numerically to keep literals plain. -/
def apos : Char := Char.ofNat 39

/-- The filler phrases of `src/app.py` line 21:
"sure", "certainly", "here is", "here-apostrophe-s", "assistant". -/
def fillerPhrases : List (List Char) :=
  ["sure".toList, "certainly".toList, "here is".toList,
   "here".toList ++ [apos] ++ "s".toList, "assistant".toList]

/-- The per-line discard test of the loop at `src/app.py` lines 15-24:
the stripped, lowercased form of the line starts with a triple-backtick fence
or contains one of the filler phrases. -/
def isFenceOrFiller (line : List Char) : Bool :=
  let lower_stripped := pyLower (stripChars line)
  listStartsWith lower_stripped "```".toList ||
    fillerPhrases.any (fun phrase => listHasSub lower_stripped phrase)

/-- The `cleaned_lines` list built by the loop at `src/app.py`
lines 14-24: keep exactly the lines the discard test rejects. -/
def cleaned_lines (lines : List (List Char)) : List (List Char) :=
  lines.filter (fun l => !isFenceOrFiller l)

/-- `code_keywords` of `src/app.py` line 26. -/
def code_keywords : List (List Char) :=
  ["from ".toList, "import ".toList, "class ".toList, "def ".toList]

/-- The per-line test of `src/app.py` line 30:
`any(line.lstrip().startswith(k) for k in code_keywords)`. -/
def isCodeStart (line : List Char) : Bool :=
  code_keywords.any (fun k => listStartsWith (lstripChars line) k)

/-- Index of the first code-looking line, mirroring the
`for idx, line in enumerate(...)` / `break` loop at `src/app.py`
lines 28-32: `none` when no line matches. -/
def findCodeIdx : List (List Char) → Option Nat
  | [] => none
  | l :: ls => if isCodeStart l then some 0 else (findCodeIdx ls).map (· + 1)

/-- `first_code_line` of `src/app.py` lines 27-32: the found index, or
the initial value `0` when the loop never hits `break`. -/
def first_code_line (cleaned : List (List Char)) : Nat :=
  (findCodeIdx cleaned).getD 0

/-- the Python builtin `"\n".join(lines)`. -/
def joinLines : List (List Char) → List Char
  | [] => []
  | [l] => l
  | l :: l2 :: ls => l ++ '\n' :: joinLines (l2 :: ls)

/-- `better_clean_generated_code` of `src/app.py` lines 5-34:
split into lines, drop fence/filler lines, drop everything before the
first code-looking line, rejoin with `\n`. -/
def better_clean_generated_code (code : List Char) : List Char :=
  joinLines ((cleaned_lines (pySplitlines code)).drop
    (first_code_line (cleaned_lines (pySplitlines code))))

/-! ### Spec-side definitions

These follow the wording of the specification (spec.md §4.1) and are
compared against the code-side definitions above in the refinement
claims. -/

/-- Spec wording, §4.1 Step 1: "discard any line whose trimmed,
lowercased form starts with a triple-backtick fence marker, or contains
any of a fixed set of filler substrings ... (sure, certainly, here is, here-apostrophe-s, assistant)". -/
def spec_discards_line (line : List Char) : Bool :=
  let t := pyLower (stripChars line)
  listStartsWith t "```".toList ||
    listHasSub t "sure".toList ||
    listHasSub t "certainly".toList ||
    listHasSub t "here is".toList ||
    listHasSub t ("here".toList ++ [apos] ++ "s".toList) ||
    listHasSub t "assistant".toList

/-- Spec wording, §4.1 Step 2: a line "whose left-trimmed content begins
with one of the fixed prefixes (from, import, class, def — each followed by a space)". -/
def spec_is_code_start (line : List Char) : Bool :=
  listStartsWith (lstripChars line) "from ".toList ||
  listStartsWith (lstripChars line) "import ".toList ||
  listStartsWith (lstripChars line) "class ".toList ||
  listStartsWith (lstripChars line) "def ".toList

/-- Spec wording, §4.1 Step 2: index of the first code-looking line,
`none` when no such line exists. -/
def spec_find_code : List (List Char) → Option Nat
  | [] => none
  | l :: ls => if spec_is_code_start l then some 0 else (spec_find_code ls).map (· + 1)

/-- Spec wording, §4.1 Step 2: "Record its index. If no such line
exists, the index defaults to 0." -/
def spec_first_code_idx (lines : List (List Char)) : Nat :=
  (spec_find_code lines).getD 0

/-! ### Orchestrator model

The "Generate Video" button handler of `src/app.py` lines 84-131, with
the three external effects (the Groq completion call, the file write,
the manim subprocess) abstracted as an environment.  The second
component of the result is the content of `generated_scene.py`
(`none` = absent), threaded explicitly. -/

/-- Outcome of the `subprocess.run` call: exit status plus captured
`stdout` and `stderr` (`src/app.py` lines 120-125). -/
structure RenderResult where
  exitCode : Int
  stdout : List Char
  stderr : List Char
deriving DecidableEq

/-- The external effects one run can observe: the completion call either
raises (`Except.error`) or returns the raw response; the file write
either raises or succeeds; the renderer yields a `RenderResult`. -/
structure OrchestratorEnv where
  completion : Except (List Char) (List Char)
  writeResult : Except (List Char) Unit
  render : RenderResult

/-- What the handler reports: one error banner per failing stage
(`src/app.py` lines 95-97, 109-111, 128-131) or the success path. -/
inductive Report where
  | generationError (msg : List Char)
  | persistenceError (msg : List Char)
  | renderError (stdoutText stderrText : List Char)
  | success (sceneCode stdoutText : List Char)
deriving DecidableEq

/-- The handler body (`src/app.py` lines 90-131): call the completion,
clean it, write the file, run the renderer; each `except` branch stops
the flow and reports its own error.  `file0` is the prior content of
`generated_scene.py`. -/
def runGenerateVideo (env : OrchestratorEnv) (file0 : Option (List Char)) :
    Report × Option (List Char) :=
  match env.completion with
  | Except.error e => (Report.generationError e, file0)
  | Except.ok raw =>
    let scene_code := better_clean_generated_code raw
    match env.writeResult with
    | Except.error e => (Report.persistenceError e, file0)
    | Except.ok _ =>
      if env.render.exitCode = 0 then
        (Report.success scene_code env.render.stdout, some scene_code)
      else
        (Report.renderError env.render.stdout env.render.stderr, some scene_code)

/-! ### Unfolding lemmas for `splitGo` -/

lemma splitGo_nil (acc : List Char) :
    splitGo [] acc = if acc.isEmpty then [] else [acc.reverse] := rfl

lemma splitGo_single (c : Char) (acc : List Char) :
    splitGo [c] acc = if isLineBreakChar c then [acc.reverse] else [(c :: acc).reverse] := rfl

lemma splitGo_cons_cons (c1 c2 : Char) (rest acc : List Char) :
    splitGo (c1 :: c2 :: rest) acc =
      if isLineBreakChar c1 then
        if c1 = '\r' && c2 = '\n' then acc.reverse :: splitGo rest []
        else acc.reverse :: splitGo (c2 :: rest) []
      else splitGo (c2 :: rest) (c1 :: acc) := rfl

lemma splitGo_cons_nb (c : Char) (hc : isLineBreakChar c = false) (rest acc : List Char) :
    splitGo (c :: rest) acc = splitGo rest (c :: acc) := by
  cases rest with
  | nil => simp [splitGo_single, splitGo_nil, hc]
  | cons r rs => simp [splitGo_cons_cons, hc]

lemma splitGo_cons_nl (rest acc : List Char) :
    splitGo ('\n' :: rest) acc = acc.reverse :: splitGo rest [] := by
  cases rest with
  | nil => simp [splitGo_single, splitGo_nil, isLineBreakChar]
  | cons r rs => simp [splitGo_cons_cons, isLineBreakChar]

lemma splitGo_cons_crlf (rest acc : List Char) :
    splitGo ('\r' :: '\n' :: rest) acc = acc.reverse :: splitGo rest [] := by
  simp [splitGo_cons_cons, isLineBreakChar]

lemma splitGo_cons_brk (c1 c2 : Char) (rest acc : List Char)
    (hbrk : isLineBreakChar c1 = true)
    (hpair : ¬(c1 = '\r' ∧ c2 = '\n')) :
    splitGo (c1 :: c2 :: rest) acc = acc.reverse :: splitGo (c2 :: rest) [] := by
  have : (c1 = '\r' && c2 = '\n') = false := by
    simpa [Bool.and_eq_true, decide_eq_true_eq] using hpair
  simp [splitGo_cons_cons, hbrk, this]

lemma splitGo_noBreak (s acc : List Char) :
    acc.all (fun c => !isLineBreakChar c) = true →
    ∀ l ∈ splitGo s acc, l.all (fun c => !isLineBreakChar c) = true := by
  induction s, acc using splitGo.induct with
  | case1 acc hemp =>
    intro hacc l hl
    simp [splitGo_nil, hemp] at hl
  | case2 acc hemp =>
    intro hacc l hl
    simp [splitGo_nil, hemp] at hl
    subst hl
    simpa using hacc
  | case3 c acc hbrk =>
    intro hacc l hl
    simp [splitGo_single, hbrk] at hl
    subst hl
    simpa using hacc
  | case4 c acc hbrk =>
    intro hacc l hl
    simp only [Bool.not_eq_true] at hbrk
    simp [splitGo_single, hbrk] at hl
    subst hl
    simp [hbrk]
    simpa using hacc
  | case5 c1 c2 rest acc hbrk hpair ih =>
    simp only [Bool.and_eq_true, decide_eq_true_eq] at hpair
    obtain ⟨rfl, rfl⟩ := hpair
    intro hacc l hl
    rw [splitGo_cons_crlf] at hl
    simp only [List.mem_cons] at hl
    rcases hl with rfl | hl
    · simpa using hacc
    · exact ih (by simp) l hl
  | case6 c1 c2 rest acc hbrk hpair ih =>
    simp only [Bool.and_eq_true, decide_eq_true_eq] at hpair
    intro hacc l hl
    rw [splitGo_cons_brk c1 c2 rest acc hbrk hpair] at hl
    simp only [List.mem_cons] at hl
    rcases hl with rfl | hl
    · simpa using hacc
    · exact ih (by simp) l hl
  | case7 c1 c2 rest acc hbrk ih =>
    simp only [Bool.not_eq_true] at hbrk
    intro hacc l hl
    rw [splitGo_cons_nb c1 hbrk] at hl
    refine ih ?_ l hl
    simp [hacc, hbrk]

lemma pySplitlines_noBreak (s : List Char) :
    ∀ l ∈ pySplitlines s, l.all (fun c => !isLineBreakChar c) = true :=
  splitGo_noBreak s [] rfl

lemma splitGo_append_nb (p : List Char) :
    p.all (fun c => !isLineBreakChar c) = true →
    ∀ t acc, splitGo (p ++ t) acc = splitGo t (p.reverse ++ acc) := by
  induction p with
  | nil => intro _ t acc; simp
  | cons c p' ih =>
    intro hp t acc
    simp only [List.all_cons, Bool.and_eq_true, Bool.not_eq_true'] at hp
    rw [List.cons_append, splitGo_cons_nb c hp.1, ih (by simp [hp.2])]
    simp

/-! ### `joinLines` / `pySplitlines` round-trip -/

lemma pySplitlines_single_nb (l : List Char)
    (hl : l.all (fun c => !isLineBreakChar c) = true) (hne : l ≠ []) :
    pySplitlines l = [l] := by
  unfold pySplitlines
  have h := splitGo_append_nb l hl [] []
  simp only [List.append_nil] at h
  rw [h, splitGo_nil]
  simp [List.isEmpty_iff, hne]

lemma pySplitlines_join_cons (l : List Char)
    (hl : l.all (fun c => !isLineBreakChar c) = true)
    (L : List (List Char)) (hL : L ≠ []) :
    pySplitlines (joinLines (l :: L)) = l :: pySplitlines (joinLines L) := by
  obtain ⟨l2, L', rfl⟩ : ∃ l2 L', L = l2 :: L' := by
    cases L with
    | nil => exact absurd rfl hL
    | cons a b => exact ⟨a, b, rfl⟩
  show pySplitlines (l ++ '\n' :: joinLines (l2 :: L')) = _
  unfold pySplitlines
  rw [splitGo_append_nb l hl, splitGo_cons_nl]
  simp

lemma pySplitlines_joinLines (L : List (List Char))
    (h : ∀ l ∈ L, l.all (fun c => !isLineBreakChar c) = true)
    (hlast : L.getLast? ≠ some []) :
    pySplitlines (joinLines L) = L := by
  induction L with
  | nil => rfl
  | cons l L' ih =>
    cases L' with
    | nil =>
      have hne : l ≠ [] := by
        intro h0
        subst h0
        simp at hlast
      simpa using pySplitlines_single_nb l (h l (by simp)) hne
    | cons l2 L'' =>
      rw [pySplitlines_join_cons l (h l (by simp)) _ (by simp)]
      rw [ih (fun x hx => h x (List.mem_cons_of_mem _ hx))
        (by simpa [List.getLast?_cons_cons] using hlast)]

lemma mem_pySplitlines_joinLines (L : List (List Char))
    (h : ∀ l ∈ L, l.all (fun c => !isLineBreakChar c) = true) :
    ∀ l ∈ pySplitlines (joinLines L), l ∈ L := by
  induction L with
  | nil =>
    intro l hl
    simp [joinLines, pySplitlines, splitGo_nil] at hl
  | cons x L' ih =>
    cases L' with
    | nil =>
      intro l hl
      by_cases hx : x = []
      · subst hx
        simp [joinLines, pySplitlines, splitGo_nil] at hl
      · rw [show joinLines [x] = x from rfl,
          pySplitlines_single_nb x (h x (by simp)) hx] at hl
        simpa using hl
    | cons y L'' =>
      intro l hl
      rw [pySplitlines_join_cons x (h x (by simp)) _ (by simp)] at hl
      rcases List.mem_cons.mp hl with rfl | hl
      · exact List.mem_cons_self _ _
      · exact List.mem_cons_of_mem x
          (ih (fun a ha => h a (List.mem_cons_of_mem _ ha)) l hl)

lemma joinLines_getLast_empty :
    ∀ L : List (List Char), L.getLast? = some [] →
      joinLines L = [] ∨ (joinLines L).getLast? = some '\n' := by
  intro L
  induction L with
  | nil => intro hlast; simp at hlast
  | cons l L' ih =>
    intro hlast
    cases L' with
    | nil =>
      left
      simp at hlast
      simp [joinLines, hlast]
    | cons l2 L'' =>
      right
      have hlast' : (l2 :: L'').getLast? = some [] := by
        simpa [List.getLast?_cons_cons] using hlast
      show (l ++ '\n' :: joinLines (l2 :: L'')).getLast? = some '\n'
      rcases ih hlast' with hJ | hJ
      · rw [hJ]
        exact List.getLast?_concat l
      · have hJne : joinLines (l2 :: L'') ≠ [] := by
          intro h0
          rw [h0] at hJ
          simp at hJ
        rw [List.getLast?_append]
        rw [show ('\n' :: joinLines (l2 :: L'')).getLast? = (joinLines (l2 :: L'')).getLast? by
          cases hJL : joinLines (l2 :: L'') with
          | nil => exact absurd hJL hJne
          | cons a b => simp [List.getLast?_cons_cons]]
        simp [hJ]

/-! ### Facts about `findCodeIdx` and the spec-side definitions -/

lemma findCodeIdx_none (L : List (List Char)) (h : findCodeIdx L = none) :
    ∀ l ∈ L, isCodeStart l = false := by
  induction L with
  | nil => intro l hl; simp at hl
  | cons x L' ih =>
    rw [findCodeIdx] at h
    by_cases hx : isCodeStart x
    · simp [hx] at h
    · intro l hl
      rcases List.mem_cons.mp hl with rfl | hl
      · simpa using hx
      · exact ih (by simpa [hx] using h) l hl

lemma findCodeIdx_some (L : List (List Char)) (i : Nat) (h : findCodeIdx L = some i) :
    ∃ l R, L.drop i = l :: R ∧ isCodeStart l = true := by
  induction L generalizing i with
  | nil => simp [findCodeIdx] at h
  | cons x L' ih =>
    rw [findCodeIdx] at h
    by_cases hx : isCodeStart x
    · simp [hx] at h
      exact ⟨x, L', by rw [← h]; rfl, by simpa using hx⟩
    · simp [hx, Option.map_eq_some'] at h
      obtain ⟨j, hj, rfl⟩ := h
      obtain ⟨l, R, hdrop, hcs⟩ := ih j hj
      exact ⟨l, R, by simpa using hdrop, hcs⟩

lemma isFenceOrFiller_eq_spec (l : List Char) :
    isFenceOrFiller l = spec_discards_line l := by
  simp [isFenceOrFiller, spec_discards_line, fillerPhrases, List.any_cons, List.any_nil,
    Bool.or_assoc]

lemma isCodeStart_eq_spec (l : List Char) :
    isCodeStart l = spec_is_code_start l := by
  simp [isCodeStart, spec_is_code_start, code_keywords, List.any_cons, List.any_nil,
    Bool.or_assoc]

lemma findCodeIdx_eq_spec (L : List (List Char)) :
    findCodeIdx L = spec_find_code L := by
  induction L with
  | nil => rfl
  | cons x L' ih => rw [findCodeIdx, spec_find_code, isCodeStart_eq_spec, ih]

lemma first_code_line_eq_spec (L : List (List Char)) :
    first_code_line L = spec_first_code_idx L := by
  rw [first_code_line, spec_first_code_idx, findCodeIdx_eq_spec]

/-! ### The retained-and-truncated line block -/

lemma dropped_cleaned_mem (code : List Char) :
    ∀ l ∈ (cleaned_lines (pySplitlines code)).drop
        (first_code_line (cleaned_lines (pySplitlines code))),
      l.all (fun c => !isLineBreakChar c) = true ∧ isFenceOrFiller l = false := by
  intro l hl
  have hC : l ∈ cleaned_lines (pySplitlines code) := List.drop_subset _ _ hl
  rw [cleaned_lines] at hC
  have hmem := List.mem_filter.mp hC
  exact ⟨pySplitlines_noBreak code l hmem.1, by simpa using hmem.2⟩

lemma clean_of_clean_output (code : List Char)
    (h2 : (better_clean_generated_code code).getLast? ≠ some '\n') :
    better_clean_generated_code (better_clean_generated_code code)
      = better_clean_generated_code code := by
  set C := cleaned_lines (pySplitlines code) with hC
  set i := first_code_line C with hi
  set D := C.drop i with hD
  have hfacts := dropped_cleaned_mem code
  rw [← hC, ← hi, ← hD] at hfacts
  have hout : better_clean_generated_code code = joinLines D := rfl
  rw [hout] at h2 ⊢
  by_cases hlast : D.getLast? = some []
  · rcases joinLines_getLast_empty D hlast with hJ | hJ
    · rw [hJ]
      decide
    · exact absurd hJ h2
  · have hsplit : pySplitlines (joinLines D) = D :=
      pySplitlines_joinLines D (fun l hl => (hfacts l hl).1) hlast
    have hfilter : cleaned_lines D = D := by
      rw [cleaned_lines]
      exact List.filter_eq_self.mpr (fun a ha => by simp [(hfacts a ha).2])
    have hform : better_clean_generated_code (joinLines D)
        = joinLines ((cleaned_lines (pySplitlines (joinLines D))).drop
            (first_code_line (cleaned_lines (pySplitlines (joinLines D))))) := rfl
    rw [hform, hsplit, hfilter]
    suffices hfz : first_code_line D = 0 by rw [hfz]; simp
    cases hfind : findCodeIdx C with
    | none =>
      have hi0 : i = 0 := by rw [hi, first_code_line, hfind]; rfl
      have hDC : D = C := by rw [hD, hi0]; simp
      rw [first_code_line, hDC, hfind]
      rfl
    | some j =>
      have hi0 : i = j := by rw [hi, first_code_line, hfind]; rfl
      obtain ⟨l, R, hdrop, hcs⟩ := findCodeIdx_some C j hfind
      have hD' : D = l :: R := by rw [hD, hi0]; exact hdrop
      rw [first_code_line, hD', findCodeIdx]
      simp [hcs]

lemma findCodeIdx_eq_none (L : List (List Char)) (h : ∀ l ∈ L, isCodeStart l = false) :
    findCodeIdx L = none := by
  induction L with
  | nil => rfl
  | cons x L' ih =>
    rw [findCodeIdx]
    simp [h x (List.mem_cons_self _ _), ih (fun l hl => h l (List.mem_cons_of_mem _ hl))]

lemma output_lines_pass (code : List Char) :
    ∀ l ∈ pySplitlines (better_clean_generated_code code), isFenceOrFiller l = false := by
  intro l hl
  have hfacts := dropped_cleaned_mem code
  have hout : better_clean_generated_code code
      = joinLines ((cleaned_lines (pySplitlines code)).drop
          (first_code_line (cleaned_lines (pySplitlines code)))) := rfl
  rw [hout] at hl
  have hmem := mem_pySplitlines_joinLines _ (fun a ha => (hfacts a ha).1) l hl
  exact (hfacts l hmem).2

lemma joinLines_break_chars (L : List (List Char))
    (h : ∀ l ∈ L, l.all (fun c => !isLineBreakChar c) = true) :
    ∀ c ∈ joinLines L, isLineBreakChar c = true → c = '\n' := by
  induction L with
  | nil => intro c hc; simp [joinLines] at hc
  | cons l L' ih =>
    cases L' with
    | nil =>
      intro c hc hbrk
      have hall := List.all_eq_true.mp (h l (by simp)) c (by simpa [joinLines] using hc)
      simp [hbrk] at hall
    | cons l2 L'' =>
      intro c hc hbrk
      have hc' : c ∈ l ++ '\n' :: joinLines (l2 :: L'') := hc
      rcases List.mem_append.mp hc' with hcl | hcr
      · have hall := List.all_eq_true.mp (h l (by simp)) c hcl
        simp [hbrk] at hall
      · rcases List.mem_cons.mp hcr with rfl | hcr
        · rfl
        · exact ih (fun a ha => h a (List.mem_cons_of_mem _ ha)) c hcr hbrk

lemma output_breaks_only_nl (code : List Char) :
    (better_clean_generated_code code).all
      (fun c => !isLineBreakChar c || c == '\n') = true := by
  rw [List.all_eq_true]
  intro c hc
  have hfacts := dropped_cleaned_mem code
  have hj := joinLines_break_chars _ (fun a ha => (hfacts a ha).1) c hc
  by_cases hbrk : isLineBreakChar c
  · simp [hj hbrk]
  · simp [hbrk]

/-! ### The claims -/

/-- C1: for every input string, the line-filtering step keeps exactly the
lines the discard test of the spec rejects — a line is discarded iff its
trimmed, lowercased form starts with a triple backtick or contains one
of the filler substrings — and the kept lines are a sublist of the
lines of the input (original order, casing and content unchanged). -/
theorem claim_C1 (code : List Char) :
    cleaned_lines (pySplitlines code)
      = (pySplitlines code).filter (fun l => !spec_discards_line l)
    ∧ List.Sublist (cleaned_lines (pySplitlines code)) (pySplitlines code) := by
  constructor
  · rw [cleaned_lines]
    congr 1
    funext l
    rw [isFenceOrFiller_eq_spec]
  · rw [cleaned_lines]
    exact List.filter_sublist _

/-- C2: the Cleaner returns the filtered lines from the first-code-line index of the spec (defaulting to 0) to the end, rejoined with
newlines; when no filtered line starts with a code keyword the whole
filtered sequence is rejoined unchanged. -/
theorem claim_C2 (code : List Char) :
    better_clean_generated_code code
      = joinLines ((cleaned_lines (pySplitlines code)).drop
          (spec_first_code_idx (cleaned_lines (pySplitlines code))))
    ∧ ((cleaned_lines (pySplitlines code)).all (fun l => !spec_is_code_start l) = true →
        better_clean_generated_code code
          = joinLines (cleaned_lines (pySplitlines code))) := by
  constructor
  · rw [← first_code_line_eq_spec]
    rfl
  · intro hnone
    have hnone' : findCodeIdx (cleaned_lines (pySplitlines code)) = none := by
      apply findCodeIdx_eq_none
      intro l hl
      rw [isCodeStart_eq_spec]
      simpa using List.all_eq_true.mp hnone l hl
    have hform : better_clean_generated_code code
        = joinLines ((cleaned_lines (pySplitlines code)).drop
            (first_code_line (cleaned_lines (pySplitlines code)))) := rfl
    rw [hform, first_code_line, hnone']
    simp

/-- C2 witness: on `"hello\nworld"` no line is a code start, and the
Cleaner returns the full filtered input rejoined. -/
theorem claim_C2_witness :
    (cleaned_lines (pySplitlines "hello\nworld".toList)).all
      (fun l => !spec_is_code_start l) = true
    ∧ better_clean_generated_code "hello\nworld".toList
      = joinLines ((cleaned_lines (pySplitlines "hello\nworld".toList)).drop
          (spec_first_code_idx (cleaned_lines (pySplitlines "hello\nworld".toList))))
    ∧ better_clean_generated_code "hello\nworld".toList
      = joinLines (cleaned_lines (pySplitlines "hello\nworld".toList)) :=
  ⟨by decide, (claim_C2 "hello\nworld".toList).1,
   (claim_C2 "hello\nworld".toList).2 (by decide)⟩

/-- C3: when every line of the input is a fence or filler line the
Cleaner returns the empty string; the empty input also yields the empty
output. -/
theorem claim_C3 (code : List Char)
    (h : (pySplitlines code).all isFenceOrFiller = true) :
    better_clean_generated_code code = [] ∧ better_clean_generated_code [] = [] := by
  refine ⟨?_, by decide⟩
  have hnil : cleaned_lines (pySplitlines code) = [] := by
    rw [cleaned_lines, List.filter_eq_nil_iff]
    intro a ha
    simp [List.all_eq_true.mp h a ha]
  have hform : better_clean_generated_code code
      = joinLines ((cleaned_lines (pySplitlines code)).drop
          (first_code_line (cleaned_lines (pySplitlines code)))) := rfl
  rw [hform, hnil]
  rfl

/-- C3 witness: `"Sure!\n```"` consists only of filler/fence lines and
cleans to the empty string. -/
theorem claim_C3_witness :
    (pySplitlines "Sure!\n```".toList).all isFenceOrFiller = true
    ∧ (better_clean_generated_code "Sure!\n```".toList = []
        ∧ better_clean_generated_code [] = []) :=
  ⟨by decide, claim_C3 "Sure!\n```".toList (by decide)⟩

/-- C4: the two concrete examples — the fenced response opened by conversational filler cleans to `"import os\nprint(1)"`, and the line containing
"assistant" is removed from the second example. -/
theorem claim_C4 :
    better_clean_generated_code
        ("Sure, here".toList ++ [apos]
          ++ "s the code:\n```python\nimport os\nprint(1)\n```".toList)
      = "import os\nprint(1)".toList
    ∧ better_clean_generated_code
        "import foo\nassistant did something\ndef bar(): pass".toList
      = "import foo\ndef bar(): pass".toList :=
  ⟨by decide, by decide⟩

/-- C5 counterexample: for the input `"import os\n\n"` the first-pass
output `"import os\n"` has no residual filler or fence lines, yet a
second application of the Cleaner gives `"import os"`, so the claimed
idempotence fails as stated. -/
theorem claim_C5_counterexample :
    (pySplitlines (better_clean_generated_code "import os\n\n".toList)).all
      (fun l => !isFenceOrFiller l) = true
    ∧ better_clean_generated_code (better_clean_generated_code "import os\n\n".toList)
      ≠ better_clean_generated_code "import os\n\n".toList :=
  ⟨by decide, by decide⟩

/-- C5 (amended): applying the Cleaner twice equals applying it once,
provided the first-pass output contains no residual filler/fence
lines and does not end with a newline (the extra condition rules out a
kept trailing empty line, which re-splitting drops). -/
theorem claim_C5_amended (code : List Char)
    (_h1 : (pySplitlines (better_clean_generated_code code)).all
      (fun l => !isFenceOrFiller l) = true)
    (h2 : (better_clean_generated_code code).getLast? ≠ some '\n') :
    better_clean_generated_code (better_clean_generated_code code)
      = better_clean_generated_code code :=
  clean_of_clean_output code h2

/-- C5 witness: the amended idempotence at the input `"import os"`. -/
theorem claim_C5_witness :
    (pySplitlines (better_clean_generated_code "import os".toList)).all
      (fun l => !isFenceOrFiller l) = true
    ∧ (better_clean_generated_code "import os".toList).getLast? ≠ some '\n'
    ∧ better_clean_generated_code (better_clean_generated_code "import os".toList)
      = better_clean_generated_code "import os".toList :=
  ⟨by decide, by decide, claim_C5_amended "import os".toList (by decide) (by decide)⟩

/-- C6: the embedding of the Cleaner is a total function on strings — every
input has an output value and no error branch exists; in particular the
empty string is mapped to the empty string. -/
theorem claim_C6 :
    (∀ code : List Char, ∃ out : List Char, better_clean_generated_code code = out)
    ∧ better_clean_generated_code [] = [] :=
  ⟨fun code => ⟨better_clean_generated_code code, rfl⟩, by decide⟩

/-- C7: when the completion call raises, the handler reports a generation error carrying the raised message, the output file is left
in its prior state (no write is attempted), and the report is not a
persistence error. -/
theorem claim_C7 (env : OrchestratorEnv) (file0 : Option (List Char)) (e : List Char)
    (h : env.completion = Except.error e) :
    runGenerateVideo env file0 = (Report.generationError e, file0)
    ∧ ∀ m, (runGenerateVideo env file0).1 ≠ Report.persistenceError m := by
  have hrun : runGenerateVideo env file0 = (Report.generationError e, file0) := by
    rw [runGenerateVideo, h]
  refine ⟨hrun, fun m hcontra => ?_⟩
  rw [hrun] at hcontra
  exact Report.noConfusion hcontra

/-- C7 witness: a failing completion with message "auth" and an absent
output file. -/
theorem claim_C7_witness :
    (OrchestratorEnv.mk (Except.error "auth".toList) (Except.ok ())
        ⟨0, [], []⟩).completion = Except.error "auth".toList
    ∧ runGenerateVideo
        ⟨Except.error "auth".toList, Except.ok (), ⟨0, [], []⟩⟩ none
      = (Report.generationError "auth".toList, none)
    ∧ (runGenerateVideo
        ⟨Except.error "auth".toList, Except.ok (), ⟨0, [], []⟩⟩ none).1
      ≠ Report.persistenceError "disk".toList :=
  ⟨rfl, (claim_C7 _ none "auth".toList rfl).1,
   (claim_C7 _ none "auth".toList rfl).2 "disk".toList⟩

/-- C8: when the write succeeds and the renderer exits non-zero, the
handler reports a render error carrying the captured stdout and stderr
verbatim, and the written file still holds the cleaned code. -/
theorem claim_C8 (env : OrchestratorEnv) (file0 : Option (List Char)) (raw : List Char)
    (hc : env.completion = Except.ok raw)
    (hw : env.writeResult = Except.ok ())
    (hr : env.render.exitCode ≠ 0) :
    runGenerateVideo env file0
      = (Report.renderError env.render.stdout env.render.stderr,
         some (better_clean_generated_code raw)) := by
  rw [runGenerateVideo, hc, hw]
  simp [hr]

/-- C8 witness: a renderer exiting with status 1 after a successful
write; the report carries "out"/"err" and the file keeps the cleaned
code. -/
theorem claim_C8_witness :
    (OrchestratorEnv.mk (Except.ok "import os".toList) (Except.ok ())
        ⟨1, "out".toList, "err".toList⟩).render.exitCode ≠ 0
    ∧ runGenerateVideo
        ⟨Except.ok "import os".toList, Except.ok (),
          ⟨1, "out".toList, "err".toList⟩⟩ (some "old".toList)
      = (Report.renderError "out".toList "err".toList,
         some (better_clean_generated_code "import os".toList)) :=
  ⟨by decide,
   claim_C8 _ (some "old".toList) "import os".toList rfl rfl (by decide)⟩

/-- C9 counterexample: the Cleaner is not idempotent for all inputs —
for `"print(1)\n\n"` the first pass returns `"print(1)\n"` and the
second pass returns `"print(1)"`. -/
theorem claim_C9_counterexample :
    better_clean_generated_code (better_clean_generated_code "print(1)\n\n".toList)
      ≠ better_clean_generated_code "print(1)\n\n".toList := by decide

/-- C9 (amended): every line of the Cleaner output passes the Step-1
filter, so a second application filters out nothing; yet the Cleaner is
not idempotent for all inputs, because rejoining drops a kept trailing
empty line (see the counterexample). -/
theorem claim_C9_amended (code : List Char) :
    (pySplitlines (better_clean_generated_code code)).all
      (fun l => !isFenceOrFiller l) = true
    ∧ cleaned_lines (pySplitlines (better_clean_generated_code code))
      = pySplitlines (better_clean_generated_code code) := by
  have hpass := output_lines_pass code
  constructor
  · rw [List.all_eq_true]
    intro l hl
    simp [hpass l hl]
  · rw [cleaned_lines]
    exact List.filter_eq_self.mpr (fun a ha => by simp [hpass a ha])

/-- C10 counterexample: the output can end with a newline — the input
`"class A:\n\n"` (two trailing terminators) cleans to `"class A:\n"`. -/
theorem claim_C10_counterexample :
    better_clean_generated_code "class A:\n\n".toList = "class A:\n".toList
    ∧ ("class A:\n".toList).getLast? = some '\n' :=
  ⟨by decide, by decide⟩

/-- C10 (amended): the Cleaner normalizes line terminators — every
line-break character in the output is `\n` (so `\r\n` and `\r`
boundaries become `\n`), and a single trailing terminator is dropped
(`"import os\n"` cleans to `"import os"`); the output can still end
with `\n` when the kept lines end with an empty line. -/
theorem claim_C10_amended (code : List Char) :
    (better_clean_generated_code code).all
      (fun c => !isLineBreakChar c || c == '\n') = true
    ∧ better_clean_generated_code "import os\n".toList = "import os".toList :=
  ⟨output_breaks_only_nl code, by decide⟩
